import Mathlib

/-!
# Verification of the stock-monitor portfolio tool

A shallow embedding of the core logic of `liudaohui404/stock-monitor`.
The repository holds two variants of the same program:

* `src/index.js` — TuShare integration; formatted symbols look like `600000.SH`.
* `src/unnamed/part_002` — Tencent integration; formatted symbols look like
  `sh600000`.

Definitions suffixed with `T` embed the Tencent variant (`part_002`); the
unsuffixed ones embed `src/index.js`.  JavaScript strings are modelled as
`List Char`; JavaScript numbers are modelled by `JSNum` below.  File and
network effects are made explicit: the quote fetch becomes an oracle
`List Char → Option Quote`, and the portfolio that a function returns is the
value that `savePortfolio` writes to disk.
-/

set_option maxHeartbeats 1000000

namespace StockMonitor

/-- Model of a JavaScript (IEEE-754 double) number: `NaN`, signed infinity
(`inf true` is `+∞`), or a finite value.  Finite arithmetic is modelled
exactly over `ℚ` (IEEE rounding of finite results is not modelled, and signed
zero is collapsed to `0`); the propagation of `NaN` and of the infinities
follows IEEE-754, which is what the claims about non-finite results need. -/
inductive JSNum : Type where
  | nan : JSNum
  | inf : Bool → JSNum
  | num : ℚ → JSNum
deriving DecidableEq, Repr

/-- JavaScript `+` on numbers. -/
def jadd : JSNum → JSNum → JSNum
  | .nan, _ => .nan
  | _, .nan => .nan
  | .inf s, .inf t => if s = t then .inf s else .nan
  | .inf s, .num _ => .inf s
  | .num _, .inf t => .inf t
  | .num a, .num b => .num (a + b)

/-- JavaScript `-` on numbers. -/
def jsub : JSNum → JSNum → JSNum
  | .nan, _ => .nan
  | _, .nan => .nan
  | .inf s, .inf t => if s = t then .nan else .inf s
  | .inf s, .num _ => .inf s
  | .num _, .inf t => .inf (!t)
  | .num a, .num b => .num (a - b)

/-- JavaScript `*` on numbers. -/
def jmul : JSNum → JSNum → JSNum
  | .nan, _ => .nan
  | _, .nan => .nan
  | .inf s, .inf t => .inf (s = t)
  | .inf s, .num b => if b = 0 then .nan else .inf (s = decide (0 < b))
  | .num a, .inf t => if a = 0 then .nan else .inf (t = decide (0 < a))
  | .num a, .num b => .num (a * b)

/-- JavaScript `/` on numbers.  Division of a nonzero value by zero yields an
infinity, `0/0` yields `NaN` (the zero divisors that arise in the program come
from sums `x + (-x)`, which IEEE-754 evaluates to `+0`, so the sign of the
resulting infinity is the sign of the numerator). -/
def jdiv : JSNum → JSNum → JSNum
  | .nan, _ => .nan
  | _, .nan => .nan
  | .inf _, .inf _ => .nan
  | .inf s, .num b => if b = 0 then .inf s else .inf (s = decide (0 < b))
  | .num _, .inf _ => .num 0
  | .num a, .num b =>
      if b = 0 then (if a = 0 then .nan else .inf (decide (0 < a)))
      else .num (a / b)

/-- `Number.isFinite`: true exactly on the finite values. -/
def JSNum.isFinite : JSNum → Bool
  | .num _ => true
  | _ => false

/-! ## String primitives used by the program (on `List Char`) -/

/-- JavaScript `s.includes(c)` for a single character `c`. -/
def includes (c : Char) : List Char → Bool
  | [] => false
  | d :: t => d == c || includes c t

/-- JavaScript `s.startsWith(c)` for a single character `c`. -/
def starts (c : Char) : List Char → Bool
  | [] => false
  | d :: _ => d == c

/-- JavaScript `s.split(".")`: the list of `.`-separated segments. -/
def splitOnDot : List Char → List (List Char)
  | [] => [[]]
  | c :: rest =>
      if c = '.' then [] :: splitOnDot rest
      else
        match splitOnDot rest with
        | [] => [[c]]
        | seg :: segs => (c :: seg) :: segs

/-- ASCII model of JavaScript `toLowerCase` on one character (the program only
lower-cases exchange markers such as `"SH"`/`"SZ"`). -/
def lowerChar (c : Char) : Char :=
  if 'A' ≤ c ∧ c ≤ 'Z' then Char.ofNat (c.toNat + 32) else c

/-! ## Symbol formatting -/

/-- `formatStockCode` from `src/index.js` (TuShare form):
`600000 → 600000.SH`, `000001 → 000001.SZ`; an input that already contains a
`.` separator is returned unchanged (it is already in the endpoint's form);
any other leading character is passed through unchanged. -/
def formatStockCode (symbol : List Char) : List Char :=
  if includes '.' symbol then symbol
  else if starts '6' symbol then symbol ++ ['.', 'S', 'H']
  else if starts '0' symbol || starts '3' symbol then symbol ++ ['.', 'S', 'Z']
  else symbol

/-- `formatStockCode` from `src/unnamed/part_002` (Tencent form):
`600000 → sh600000`, `000001 → sz000001`; an input containing `.` is split
into `[code, market]` and reassembled as `market.toLowerCase() + code`. -/
def formatStockCodeT (symbol : List Char) : List Char :=
  if includes '.' symbol then
    let parts := splitOnDot symbol
    let code := parts.headD []
    let market := (parts.drop 1).headD []
    market.map lowerChar ++ code
  else if starts '6' symbol then 's' :: 'h' :: symbol
  else if starts '0' symbol || starts '3' symbol then 's' :: 'z' :: symbol
  else symbol

/-! ## Persistence -/

/-- The persisted configuration record `{ apiKey: string }`. -/
structure Config : Type where
  apiKey : List Char
deriving DecidableEq, Repr

/-- `loadConfig` from `src/index.js` (identical in `part_002`).  `file` is the
content of `config.json` (`none` when the file is missing); `parse` abstracts
`JSON.parse` (`none` on unparseable input).  The result pairs the in-memory
config with a flag saying whether the default record was written back to disk
by `saveConfig` (the `catch` branch).  The function is total: the `catch`
swallows every read/parse failure, so no error reaches the caller. -/
def loadConfig (parse : List Char → Option Config) (file : Option (List Char)) :
    Config × Bool :=
  match file with
  | none => (⟨[]⟩, true)
  | some content =>
      match parse content with
      | some c => (c, false)
      | none => (⟨[]⟩, true)

/-- One portfolio entry, as persisted in `portfolio.json`.  A freshly added
position has no `dateModified` field (`none`); merging sets it. -/
structure Position : Type where
  symbol : List Char
  name : List Char
  shares : JSNum
  purchasePrice : JSNum
  dateAdded : List Char
  dateModified : Option (List Char)
deriving DecidableEq, Repr

/-- `loadPortfolio` from `src/index.js` (identical in `part_002`), modelled
like `loadConfig`: a missing or unparseable `portfolio.json` is replaced by
the empty portfolio, which is immediately written back (flag `true`). -/
def loadPortfolio (parse : List Char → Option (List Position))
    (file : Option (List Char)) : List Position × Bool :=
  match file with
  | none => ([], true)
  | some content =>
      match parse content with
      | some pf => (pf, false)
      | none => ([], true)

/-! ## Portfolio engine -/

/-- The new-position record built in the `else` branch of `addPosition`
(both variants): `{ symbol, name, shares, purchasePrice, dateAdded }`. -/
def newPos (symbol : List Char) (shares price : JSNum) (name now : List Char) :
    Position :=
  { symbol := symbol, name := name, shares := shares, purchasePrice := price,
    dateAdded := now, dateModified := none }

/-- The in-place update that `addPosition` (both variants) performs on an
existing position: weighted-average purchase price, summed share count, a new
`dateModified`, and — only when the `name` argument is non-empty (JavaScript
`if (name)`) — an overwritten display name. -/
def mergePos (p : Position) (shares price : JSNum) (name now : List Char) :
    Position :=
  let totalOldCost := jmul p.shares p.purchasePrice
  let totalNewCost := jmul shares price
  let totalShares := jadd p.shares shares
  let averagePrice := jdiv (jadd totalOldCost totalNewCost) totalShares
  { p with shares := totalShares, purchasePrice := averagePrice,
           dateModified := some now,
           name := if name.isEmpty then p.name else name }

/-- `portfolio.find(p => p.symbol === key)` followed by mutation of the found
object: replaces the first position whose symbol is `key` by its update,
returning the new list together with the updated entry; `none` when no
position matches. -/
def updateFirst (key : List Char) (f : Position → Position) :
    List Position → Option (List Position × Position)
  | [] => none
  | p :: ps =>
      if p.symbol = key then some (f p :: ps, f p)
      else
        match updateFirst key f ps with
        | some (ps', q) => some (p :: ps', q)
        | none => none

/-- `addPosition` from `src/index.js`.  The first component is the portfolio
that `savePortfolio` persists.  The second component models the function's
result: on a merge it returns the updated position (`existingPosition` is
truthy, so `existingPosition || position` short-circuits); on the append path
it is `Except.error ()`, because `position` is declared with `const` inside
the `else` block and is out of scope at `return existingPosition || position`,
so that statement throws a `ReferenceError` — after the new position has
already been pushed and persisted. -/
def addPosition (portfolio : List Position) (symbol : List Char)
    (shares price : JSNum) (name now : List Char) :
    List Position × Except Unit Position :=
  match updateFirst (formatStockCode symbol)
      (fun p => mergePos p shares price name now) portfolio with
  | some (pf', p') => (pf', Except.ok p')
  | none =>
      (portfolio ++ [newPos (formatStockCode symbol) shares price name now],
       Except.error ())

/-- `addPosition` from `src/unnamed/part_002`.  Identical update logic, but
`let position` is hoisted to function scope, so the append path returns the
new position normally. -/
def addPositionT (portfolio : List Position) (symbol : List Char)
    (shares price : JSNum) (name now : List Char) :
    List Position × Position :=
  match updateFirst (formatStockCodeT symbol)
      (fun p => mergePos p shares price name now) portfolio with
  | some (pf', p') => (pf', p')
  | none =>
      let p := newPos (formatStockCodeT symbol) shares price name now
      (portfolio ++ [p], p)

instance : DecidableEq (Except Unit Position) := fun a b =>
  match a, b with
  | .error x, .error y => .isTrue (by rw [Subsingleton.elim x y])
  | .ok x, .ok y =>
      if h : x = y then .isTrue (by rw [h]) else .isFalse (by simp [h])
  | .error _, .ok _ => .isFalse (by simp)
  | .ok _, .error _ => .isFalse (by simp)

/-- `removePosition` from `src/index.js`: unconditionally filters out the
positions whose symbol equals the formatted argument and persists the result.
The boolean records whether a "not found" message was printed — this variant
never prints one. -/
def removePosition (portfolio : List Position) (symbol : List Char) :
    List Position × Bool :=
  (portfolio.filter (fun p => !(p.symbol == formatStockCode symbol)), false)

/-- `removePosition` from `src/unnamed/part_002`: first looks a position up by
`p.name === symbol || p.symbol === symbol` (the raw argument); when that find
fails it prints "Position not found" (boolean `true`) and returns without
saving; otherwise it filters by the formatted symbol and persists. -/
def removePositionT (portfolio : List Position) (symbol : List Char) :
    List Position × Bool :=
  match portfolio.find? (fun p => p.name == symbol || p.symbol == symbol) with
  | none => (portfolio, true)
  | some _ =>
      (portfolio.filter (fun p => !(p.symbol == formatStockCodeT symbol)), false)

/-! ## Valuation -/

/-- The fields of a parsed quote that the valuation uses (`close` and
`pct_chg`); the remaining parsed fields are informational only. -/
structure Quote : Type where
  close : JSNum
  changePercent : JSNum
deriving DecidableEq, Repr

/-- One output row of `calculatePortfolio`.  The program formats the numeric
fields with `toFixed(2)` for display; the row here carries the unrounded
values that feed that formatting (`ret` stands for the `return` field, a
reserved word in Lean). -/
structure CalcRow : Type where
  symbol : List Char
  name : List Char
  shares : JSNum
  purchasePrice : JSNum
  currentPrice : JSNum
  todayChange : JSNum
  value : JSNum
  profit : JSNum
  ret : JSNum
deriving DecidableEq, Repr

/-- The summary block of `calculatePortfolio`, again with the unrounded
values that `toFixed(2)` would format. -/
structure CalcSummary : Type where
  totalValue : JSNum
  totalCost : JSNum
  totalProfit : JSNum
  totalReturn : JSNum
deriving DecidableEq, Repr

/-- Result of `calculatePortfolio`. -/
structure CalcResult : Type where
  positions : List CalcRow
  summary : CalcSummary
deriving DecidableEq, Repr

/-- The row pushed for one position with a successful quote:
`cost = shares*purchasePrice`, `value = shares*close`, `profit = value-cost`,
`returnPct = (profit/cost)*100`. -/
def calcRow (p : Position) (q : Quote) : CalcRow :=
  let currentPrice := q.close
  let cost := jmul p.shares p.purchasePrice
  let value := jmul p.shares currentPrice
  let profit := jsub value cost
  let returnPct := jmul (jdiv profit cost) (.num 100)
  { symbol := p.symbol, name := p.name, shares := p.shares,
    purchasePrice := p.purchasePrice, currentPrice := currentPrice,
    todayChange := q.changePercent, value := value, profit := profit,
    ret := returnPct }

/-- The `for` loop of `calculatePortfolio`: `fetch` abstracts
`getStockData` (`none` models a failed fetch, i.e. the `null` return).  The
accumulators are `totalValue` and `totalCost`; a position whose fetch fails
adds no row and leaves both accumulators untouched. -/
def calcLoop (fetch : List Char → Option Quote) :
    List Position → JSNum → JSNum → List CalcRow × JSNum × JSNum
  | [], tv, tc => ([], tv, tc)
  | p :: ps, tv, tc =>
      match fetch p.symbol with
      | none => calcLoop fetch ps tv tc
      | some q =>
          let cost := jmul p.shares p.purchasePrice
          let value := jmul p.shares q.close
          let r := calcLoop fetch ps (jadd tv value) (jadd tc cost)
          (calcRow p q :: r.1, r.2)

/-- `calculatePortfolio` from `src/index.js` (the loop body is identical in
`part_002`): runs the loop from zero accumulators and assembles the summary
`totalProfit = totalValue - totalCost`,
`totalReturn = ((totalValue - totalCost) / totalCost) * 100`. -/
def calculatePortfolio (fetch : List Char → Option Quote)
    (portfolio : List Position) : CalcResult :=
  let r := calcLoop fetch portfolio (.num 0) (.num 0)
  { positions := r.1,
    summary :=
      { totalValue := r.2.1, totalCost := r.2.2,
        totalProfit := jsub r.2.1 r.2.2,
        totalReturn := jmul (jdiv (jsub r.2.1 r.2.2) r.2.2) (.num 100) } }

/-- Sum of a list of JavaScript numbers, folded left from `0` — the shape of
the `totalValue`/`totalCost` accumulation in `calculatePortfolio`. -/
def jsum (l : List JSNum) : JSNum := l.foldl jadd (.num 0)

/-! ## Basic lemmas about the string primitives -/

@[simp] theorem includes_nil (c : Char) : includes c [] = false := rfl

@[simp] theorem includes_cons (c d : Char) (t : List Char) :
    includes c (d :: t) = (d == c || includes c t) := rfl

@[simp] theorem includes_append (c : Char) (a b : List Char) :
    includes c (a ++ b) = (includes c a || includes c b) := by
  induction a with
  | nil => simp
  | cons d t ih => simp [ih, Bool.or_assoc]

@[simp] theorem starts_nil (c : Char) : starts c [] = false := rfl

@[simp] theorem starts_cons (c d : Char) (t : List Char) :
    starts c (d :: t) = (d == c) := rfl

theorem splitOnDot_ne_nil (l : List Char) : splitOnDot l ≠ [] := by
  induction l with
  | nil => simp [splitOnDot]
  | cons c t ih =>
      by_cases h : c = '.'
      · simp [splitOnDot, h]
      · simp only [splitOnDot, if_neg h]
        cases hs : splitOnDot t with
        | nil => simp
        | cons seg segs => simp

theorem splitOnDot_of_no_dot (l : List Char) (h : includes '.' l = false) :
    splitOnDot l = [l] := by
  induction l with
  | nil => rfl
  | cons c t ih =>
      simp only [includes_cons, Bool.or_eq_false_iff, beq_eq_false_iff_ne] at h
      simp only [splitOnDot, if_neg h.1]
      rw [ih h.2]

theorem splitOnDot_append (code rest : List Char)
    (h : includes '.' code = false) :
    splitOnDot (code ++ rest) =
      match splitOnDot rest with
      | [] => [code]
      | seg :: segs => (code ++ seg) :: segs := by
  induction code with
  | nil =>
      simp only [List.nil_append]
      cases hs : splitOnDot rest with
      | nil => exact absurd hs (splitOnDot_ne_nil rest)
      | cons seg segs => simp
  | cons c t ih =>
      simp only [includes_cons, Bool.or_eq_false_iff, beq_eq_false_iff_ne] at h
      cases hs : splitOnDot rest with
      | nil => exact absurd hs (splitOnDot_ne_nil rest)
      | cons seg segs =>
          have ht := ih h.2
          rw [hs] at ht
          simp only [List.cons_append, splitOnDot, if_neg h.1, List.append_eq,
            ht]

/-! ## Lemmas about `updateFirst` -/

theorem updateFirst_eq_none (key : List Char) (f : Position → Position)
    (pf : List Position) (h : ∀ p ∈ pf, p.symbol ≠ key) :
    updateFirst key f pf = none := by
  induction pf with
  | nil => rfl
  | cons p ps ih =>
      simp only [updateFirst, if_neg (h p (List.mem_cons_self p ps))]
      rw [ih (fun q hq => h q (List.mem_cons_of_mem p hq))]

theorem updateFirst_append_last (key : List Char) (f : Position → Position)
    (pf : List Position) (x : Position)
    (h : ∀ p ∈ pf, p.symbol ≠ key) (hx : x.symbol = key) :
    updateFirst key f (pf ++ [x]) = some (pf ++ [f x], f x) := by
  induction pf with
  | nil => simp [updateFirst, hx]
  | cons p ps ih =>
      simp only [List.cons_append, updateFirst,
        if_neg (h p (List.mem_cons_self p ps)), List.append_eq]
      rw [ih (fun q hq => h q (List.mem_cons_of_mem p hq))]

theorem updateFirst_of_find? (key : List Char) (f : Position → Position)
    (pf : List Position) (p : Position)
    (h : pf.find? (fun q => q.symbol == key) = some p) :
    ∃ pf', updateFirst key f pf = some (pf', f p) ∧ f p ∈ pf' := by
  induction pf with
  | nil => simp at h
  | cons r t ih =>
      by_cases hr : r.symbol = key
      · rw [List.find?_cons_of_pos _ (by simpa using hr)] at h
        injection h with h
        subst h
        exact ⟨f r :: t, by simp [updateFirst, hr], List.mem_cons_self _ _⟩
      · rw [List.find?_cons_of_neg _ (by simpa using hr)] at h
        obtain ⟨pf', h1, h2⟩ := ih h
        exact ⟨r :: pf', by simp [updateFirst, hr, h1],
          List.mem_cons_of_mem r h2⟩

/-! ## Lemmas about `JSNum` -/

/-- Case analysis on a `JSNum` with the sign of an infinity made concrete. -/
@[elab_as_elim] theorem JSNum.cases4 {motive : JSNum → Prop}
    (h1 : motive .nan) (h2 : motive (.inf true)) (h3 : motive (.inf false))
    (h4 : ∀ q, motive (.num q)) : ∀ x, motive x := by
  intro x
  cases x with
  | nan => exact h1
  | inf s =>
      cases s with
      | true => exact h2
      | false => exact h3
  | num q => exact h4 q

/-- The parallelogram identity `(a+v) - (b+c) = (a-b) + (v-c)` holds for all
JavaScript numbers, `NaN` and infinities included. -/
theorem jsub_jadd_parallelogram (a b v c : JSNum) :
    jsub (jadd a v) (jadd b c) = jadd (jsub a b) (jsub v c) := by
  cases a using JSNum.cases4 <;> cases b using JSNum.cases4 <;>
  cases v using JSNum.cases4 <;> cases c using JSNum.cases4 <;>
    first
      | rfl
      | (simp [jadd, jsub]; done)
      | (simp [jadd, jsub]; ring)

/-- Difference of two running sums is the running sum of the pairwise
differences, for any starting accumulators. -/
theorem foldl_jadd_sub (L : List (JSNum × JSNum)) :
    ∀ a b : JSNum,
    jsub ((L.map Prod.fst).foldl jadd a) ((L.map Prod.snd).foldl jadd b) =
      (L.map (fun x => jsub x.1 x.2)).foldl jadd (jsub a b) := by
  induction L with
  | nil => intro a b; rfl
  | cons x t ih =>
      intro a b
      simp only [List.map_cons, List.foldl_cons]
      rw [ih, jsub_jadd_parallelogram]

theorem filterMap_ext {α β : Type} (f g : α → Option β) (l : List α)
    (h : ∀ a, f a = g a) : l.filterMap f = l.filterMap g := by
  induction l with
  | nil => rfl
  | cons x t ih => rw [List.filterMap_cons, List.filterMap_cons, h x, ih]

/-- Closed form of the valuation loop: the rows are exactly the successfully
quoted positions' rows, and the accumulators fold the corresponding values
and costs, in loop order. -/
theorem calcLoop_spec (fetch : List Char → Option Quote)
    (pf : List Position) :
    ∀ tv tc : JSNum,
    calcLoop fetch pf tv tc =
      (pf.filterMap (fun p => (fetch p.symbol).map (calcRow p)),
       (pf.filterMap (fun p => (fetch p.symbol).map
          (fun q => jmul p.shares q.close))).foldl jadd tv,
       (pf.filterMap (fun p => (fetch p.symbol).map
          (fun _ => jmul p.shares p.purchasePrice))).foldl jadd tc) := by
  induction pf with
  | nil => intro tv tc; rfl
  | cons p ps ih =>
      intro tv tc
      cases hf : fetch p.symbol with
      | none => simp [calcLoop, hf, ih]
      | some q => simp [calcLoop, hf, ih]

theorem jdiv_num_zero_not_finite (x : JSNum) :
    (jdiv x (.num 0)).isFinite = false := by
  match x with
  | .nan => rfl
  | .inf s => simp [jdiv, JSNum.isFinite]
  | .num a =>
      by_cases h : a = 0 <;> simp [jdiv, h, JSNum.isFinite]

theorem addPosition_absent (pf : List Position) (sym : List Char)
    (shares price : JSNum) (name now : List Char)
    (h : ∀ p ∈ pf, p.symbol ≠ formatStockCode sym) :
    addPosition pf sym shares price name now =
      (pf ++ [newPos (formatStockCode sym) shares price name now],
       Except.error ()) := by
  unfold addPosition
  rw [updateFirst_eq_none _ _ _ h]

theorem addPositionT_absent (pf : List Position) (sym : List Char)
    (shares price : JSNum) (name now : List Char)
    (h : ∀ p ∈ pf, p.symbol ≠ formatStockCodeT sym) :
    addPositionT pf sym shares price name now =
      (pf ++ [newPos (formatStockCodeT sym) shares price name now],
       newPos (formatStockCodeT sym) shares price name now) := by
  unfold addPositionT
  rw [updateFirst_eq_none _ _ _ h]

theorem addPosition_append_merge (pf : List Position) (x : Position)
    (sym : List Char) (shares price : JSNum) (name now : List Char)
    (h : ∀ p ∈ pf, p.symbol ≠ formatStockCode sym)
    (hx : x.symbol = formatStockCode sym) :
    addPosition (pf ++ [x]) sym shares price name now =
      (pf ++ [mergePos x shares price name now],
       Except.ok (mergePos x shares price name now)) := by
  unfold addPosition
  rw [updateFirst_append_last _ _ _ _ h hx]

theorem addPositionT_append_merge (pf : List Position) (x : Position)
    (sym : List Char) (shares price : JSNum) (name now : List Char)
    (h : ∀ p ∈ pf, p.symbol ≠ formatStockCodeT sym)
    (hx : x.symbol = formatStockCodeT sym) :
    addPositionT (pf ++ [x]) sym shares price name now =
      (pf ++ [mergePos x shares price name now],
       mergePos x shares price name now) := by
  unfold addPositionT
  rw [updateFirst_append_last _ _ _ _ h hx]

/-! ## Claim theorems -/

/-- C1: for every portfolio not yet holding the symbol, calling `add` twice
with the same symbol — shares `S1` at price `P1`, then shares `S2` at price
`P2`, with `S1+S2 ≠ 0` — yields a portfolio containing exactly one position
for the formatted symbol, with `shares = S1+S2` and
`purchasePrice = (S1*P1+S2*P2)/(S1+S2)`.  Proved for both program variants
(`src/index.js` and `src/unnamed/part_002`). -/
theorem addPosition_twice_weighted_average :
    (∀ (pf : List Position) (sym : List Char) (s1 p1 s2 p2 : ℚ)
       (n1 n2 t1 t2 : List Char),
       (∀ p ∈ pf, p.symbol ≠ formatStockCode sym) → s1 + s2 ≠ 0 →
       ((addPosition (addPosition pf sym (.num s1) (.num p1) n1 t1).1
           sym (.num s2) (.num p2) n2 t2).1.countP
             (fun p => p.symbol == formatStockCode sym) = 1) ∧
       ∃ q ∈ (addPosition (addPosition pf sym (.num s1) (.num p1) n1 t1).1
           sym (.num s2) (.num p2) n2 t2).1,
         q.symbol = formatStockCode sym ∧ q.shares = .num (s1 + s2) ∧
         q.purchasePrice = .num ((s1 * p1 + s2 * p2) / (s1 + s2))) ∧
    (∀ (pf : List Position) (sym : List Char) (s1 p1 s2 p2 : ℚ)
       (n1 n2 t1 t2 : List Char),
       (∀ p ∈ pf, p.symbol ≠ formatStockCodeT sym) → s1 + s2 ≠ 0 →
       ((addPositionT (addPositionT pf sym (.num s1) (.num p1) n1 t1).1
           sym (.num s2) (.num p2) n2 t2).1.countP
             (fun p => p.symbol == formatStockCodeT sym) = 1) ∧
       ∃ q ∈ (addPositionT (addPositionT pf sym (.num s1) (.num p1) n1 t1).1
           sym (.num s2) (.num p2) n2 t2).1,
         q.symbol = formatStockCodeT sym ∧ q.shares = .num (s1 + s2) ∧
         q.purchasePrice = .num ((s1 * p1 + s2 * p2) / (s1 + s2))) := by
  constructor
  · intro pf sym s1 p1 s2 p2 n1 n2 t1 t2 habs hne
    have e1 := addPosition_absent pf sym (.num s1) (.num p1) n1 t1 habs
    have e2 := addPosition_append_merge pf
      (newPos (formatStockCode sym) (.num s1) (.num p1) n1 t1) sym
      (.num s2) (.num p2) n2 t2 habs rfl
    have hz : pf.countP (fun p => p.symbol == formatStockCode sym) = 0 :=
      List.countP_eq_zero.mpr (fun a ha => by simpa using habs a ha)
    simp only [e1, e2]
    refine ⟨?_, ?_⟩
    · simp [List.countP_append, hz, mergePos, newPos]
    · refine ⟨mergePos (newPos (formatStockCode sym) (.num s1) (.num p1) n1 t1)
        (.num s2) (.num p2) n2 t2, by simp, rfl, rfl, ?_⟩
      simp [mergePos, newPos, jmul, jadd, jdiv, hne]
  · intro pf sym s1 p1 s2 p2 n1 n2 t1 t2 habs hne
    have e1 := addPositionT_absent pf sym (.num s1) (.num p1) n1 t1 habs
    have e2 := addPositionT_append_merge pf
      (newPos (formatStockCodeT sym) (.num s1) (.num p1) n1 t1) sym
      (.num s2) (.num p2) n2 t2 habs rfl
    have hz : pf.countP (fun p => p.symbol == formatStockCodeT sym) = 0 :=
      List.countP_eq_zero.mpr (fun a ha => by simpa using habs a ha)
    simp only [e1, e2]
    refine ⟨?_, ?_⟩
    · simp [List.countP_append, hz, mergePos, newPos]
    · refine ⟨mergePos (newPos (formatStockCodeT sym) (.num s1) (.num p1) n1 t1)
        (.num s2) (.num p2) n2 t2, by simp, rfl, rfl, ?_⟩
      simp [mergePos, newPos, jmul, jadd, jdiv, hne]

/-- Witness for C1: the spec's own example — `add("600000", 100, 10)` then
`add("600000", 100, 12)` gives one position with 200 shares at 11.00. -/
theorem addPosition_twice_weighted_average_witness :
    ((∀ p ∈ ([] : List Position),
        p.symbol ≠ formatStockCode ['6', '0', '0', '0', '0', '0']) ∧
      (100 : ℚ) + 100 ≠ 0) ∧
    (((addPosition
        (addPosition [] ['6', '0', '0', '0', '0', '0']
          (.num 100) (.num 10) [] []).1
        ['6', '0', '0', '0', '0', '0'] (.num 100) (.num 12) [] []).1.countP
          (fun p => p.symbol == formatStockCode ['6', '0', '0', '0', '0', '0'])
        = 1) ∧
      ∃ q ∈ (addPosition
        (addPosition [] ['6', '0', '0', '0', '0', '0']
          (.num 100) (.num 10) [] []).1
        ['6', '0', '0', '0', '0', '0'] (.num 100) (.num 12) [] []).1,
        q.symbol = formatStockCode ['6', '0', '0', '0', '0', '0'] ∧
        q.shares = .num (100 + 100) ∧
        q.purchasePrice = .num ((100 * 10 + 100 * 12) / (100 + 100))) :=
  ⟨⟨by simp, by norm_num⟩,
   addPosition_twice_weighted_average.1 [] ['6', '0', '0', '0', '0', '0']
     100 10 100 12 [] [] [] [] (by simp) (by norm_num)⟩

/-- C1 counterexample: the two-add law does not hold for *every* portfolio.
If the portfolio already holds the symbol (here 1 share of `600000.SH` at 1),
the two adds of 100@10 and 100@12 merge into it, ending with 201 shares —
not `S1+S2 = 200` — and a different weighted price. -/
theorem addPosition_twice_preexisting_counterexample :
    ¬ ∃ q ∈ (addPosition (addPosition
        [{ symbol := ['6', '0', '0', '0', '0', '0', '.', 'S', 'H'],
           name := [], shares := .num 1, purchasePrice := .num 1,
           dateAdded := [], dateModified := none }]
        ['6', '0', '0', '0', '0', '0'] (.num 100) (.num 10) [] []).1
        ['6', '0', '0', '0', '0', '0'] (.num 100) (.num 12) [] []).1,
      q.symbol = formatStockCode ['6', '0', '0', '0', '0', '0'] ∧
      q.shares = .num (100 + 100) ∧
      q.purchasePrice = .num ((100 * 10 + 100 * 12) / (100 + 100)) := by
  have hfmt : formatStockCode ['6', '0', '0', '0', '0', '0'] =
      ['6', '0', '0', '0', '0', '0', '.', 'S', 'H'] := by decide
  rintro ⟨q, hq, -, hsh, -⟩
  simp [addPosition, updateFirst, hfmt, mergePos, newPos] at hq
  subst hq
  simp [jadd] at hsh

/-- C2: valuation over an arbitrary portfolio and an arbitrary fetch outcome
per position.  A row is produced exactly for each position whose fetch
succeeds (a position whose fetch fails appears in no output row), and each
row computes `cost = shares*purchasePrice`, `value = shares*close`,
`profit = value - cost`, `returnPct = (profit/cost)*100`.  The summary
totals `totalValue`, `totalCost` and `totalProfit` equal the loop-order sums
of the successfully quoted positions' values, costs and profits
respectively, so a failed position contributes zero to every total. -/
theorem calculatePortfolio_valuation (fetch : List Char → Option Quote)
    (pf : List Position) :
    (calculatePortfolio fetch pf).positions =
      pf.filterMap (fun p => (fetch p.symbol).map (calcRow p)) ∧
    (∀ p q, calcRow p q =
      { symbol := p.symbol, name := p.name, shares := p.shares,
        purchasePrice := p.purchasePrice, currentPrice := q.close,
        todayChange := q.changePercent,
        value := jmul p.shares q.close,
        profit := jsub (jmul p.shares q.close)
          (jmul p.shares p.purchasePrice),
        ret := jmul (jdiv (jsub (jmul p.shares q.close)
            (jmul p.shares p.purchasePrice))
          (jmul p.shares p.purchasePrice)) (.num 100) }) ∧
    (calculatePortfolio fetch pf).summary.totalValue =
      jsum (pf.filterMap (fun p => (fetch p.symbol).map
        (fun q => jmul p.shares q.close))) ∧
    (calculatePortfolio fetch pf).summary.totalCost =
      jsum (pf.filterMap (fun p => (fetch p.symbol).map
        (fun _ => jmul p.shares p.purchasePrice))) ∧
    (calculatePortfolio fetch pf).summary.totalProfit =
      jsum (pf.filterMap (fun p => (fetch p.symbol).map
        (fun q => jsub (jmul p.shares q.close)
          (jmul p.shares p.purchasePrice)))) := by
  have hspec := calcLoop_spec fetch pf (.num 0) (.num 0)
  refine ⟨?_, ?_, ?_, ?_, ?_⟩
  · simp [calculatePortfolio, hspec]
  · intro p q; rfl
  · simp [calculatePortfolio, hspec, jsum]
  · simp [calculatePortfolio, hspec, jsum]
  · have hL := foldl_jadd_sub
      (pf.filterMap (fun p => (fetch p.symbol).map
        (fun q => (jmul p.shares q.close, jmul p.shares p.purchasePrice))))
      (.num 0) (.num 0)
    have hV : (pf.filterMap (fun p => (fetch p.symbol).map
        (fun q => (jmul p.shares q.close,
                   jmul p.shares p.purchasePrice)))).map Prod.fst =
        pf.filterMap (fun p => (fetch p.symbol).map
          (fun q => jmul p.shares q.close)) := by
      rw [List.map_filterMap]
      apply filterMap_ext
      intro p
      cases fetch p.symbol <;> rfl
    have hC : (pf.filterMap (fun p => (fetch p.symbol).map
        (fun q => (jmul p.shares q.close,
                   jmul p.shares p.purchasePrice)))).map Prod.snd =
        pf.filterMap (fun p => (fetch p.symbol).map
          (fun _ => jmul p.shares p.purchasePrice)) := by
      rw [List.map_filterMap]
      apply filterMap_ext
      intro p
      cases fetch p.symbol <;> rfl
    have hD : (pf.filterMap (fun p => (fetch p.symbol).map
        (fun q => (jmul p.shares q.close,
                   jmul p.shares p.purchasePrice)))).map
          (fun x => jsub x.1 x.2) =
        pf.filterMap (fun p => (fetch p.symbol).map
          (fun q => jsub (jmul p.shares q.close)
            (jmul p.shares p.purchasePrice))) := by
      rw [List.map_filterMap]
      apply filterMap_ext
      intro p
      cases fetch p.symbol <;> rfl
    rw [hV, hC, hD] at hL
    have hz : jsub (JSNum.num 0) (JSNum.num 0) = JSNum.num 0 := by
      simp [jsub]
    rw [hz] at hL
    simp only [calculatePortfolio, hspec, jsum]
    exact hL

/-- C3: symbol-formatting cases, for both variants.  An input containing the
`.` separator is treated as pre-qualified: `src/index.js` keeps it unchanged
(its endpoint expects the `CODE.MARKET` shape), while `part_002` reassembles
it into the Tencent shape, lower-cased market first (`600000.SH → sh600000`).
Otherwise a leading `6` maps to the Shanghai form (`.SH` suffix resp. `sh`
prefix), a leading `0` or `3` maps to the Shenzhen form (`.SZ` resp. `sz`),
and any other leading character is passed through unchanged. -/
theorem formatStockCode_cases (s : List Char) :
    (includes '.' s = true → formatStockCode s = s) ∧
    (∀ code market : List Char, includes '.' code = false →
       includes '.' market = false → s = code ++ '.' :: market →
       formatStockCodeT s = market.map lowerChar ++ code) ∧
    (includes '.' s = false → starts '6' s = true →
       formatStockCode s = s ++ ['.', 'S', 'H'] ∧
       formatStockCodeT s = 's' :: 'h' :: s) ∧
    (includes '.' s = false → (starts '0' s || starts '3' s) = true →
       formatStockCode s = s ++ ['.', 'S', 'Z'] ∧
       formatStockCodeT s = 's' :: 'z' :: s) ∧
    (includes '.' s = false → starts '6' s = false → starts '0' s = false →
       starts '3' s = false →
       formatStockCode s = s ∧ formatStockCodeT s = s) := by
  refine ⟨?_, ?_, ?_, ?_, ?_⟩
  · intro h
    simp [formatStockCode, h]
  · intro code market hc hm hs
    subst hs
    have hdot : includes '.' (code ++ '.' :: market) = true := by simp
    have hsplit : splitOnDot (code ++ '.' :: market) = [code, market] := by
      rw [splitOnDot_append code ('.' :: market) hc]
      simp [splitOnDot, splitOnDot_of_no_dot market hm]
    simp [formatStockCodeT, hdot, hsplit]
  · intro hdot h6
    exact ⟨by simp [formatStockCode, hdot, h6],
           by simp [formatStockCodeT, hdot, h6]⟩
  · intro hdot h03
    have h6 : starts '6' s = false := by
      cases s with
      | nil => rfl
      | cons c t =>
          simp only [starts_cons, Bool.or_eq_true, beq_iff_eq] at h03 ⊢
          rcases h03 with h | h <;> simp [h]
    exact ⟨by simp [formatStockCode, hdot, h6, h03],
           by simp [formatStockCodeT, hdot, h6, h03]⟩
  · intro hdot h6 h0 h3
    exact ⟨by simp [formatStockCode, hdot, h6, h0, h3],
           by simp [formatStockCodeT, hdot, h6, h0, h3]⟩

/-- Witness for C3: `600000.SH` is reassembled to `sh600000` by the Tencent
variant, and the bare code `600000` maps to the Shanghai form in both. -/
theorem formatStockCode_cases_witness :
    ((includes '.' (['6', '0', '0', '0', '0', '0'] ++ '.' :: ['S', 'H'])
        = true) ∧
      formatStockCodeT (['6', '0', '0', '0', '0', '0'] ++ '.' :: ['S', 'H'])
        = ['S', 'H'].map lowerChar ++ ['6', '0', '0', '0', '0', '0']) ∧
    ((includes '.' ['6', '0', '0', '0', '0', '0'] = false ∧
        starts '6' ['6', '0', '0', '0', '0', '0'] = true) ∧
      formatStockCode ['6', '0', '0', '0', '0', '0']
          = ['6', '0', '0', '0', '0', '0'] ++ ['.', 'S', 'H'] ∧
      formatStockCodeT ['6', '0', '0', '0', '0', '0']
          = 's' :: 'h' :: ['6', '0', '0', '0', '0', '0']) :=
  ⟨⟨by decide,
    (formatStockCode_cases _).2.1 ['6', '0', '0', '0', '0', '0'] ['S', 'H']
      (by decide) (by decide) rfl⟩,
   ⟨⟨by decide, by decide⟩,
    (formatStockCode_cases _).2.2.1 (by decide) (by decide)⟩⟩

/-- C4 counterexample: the `part_002` formatter is not idempotent on every
string.  On `"600000."` it returns `"600000"` (empty market segment), and a
second application turns that into `"sh600000"`. -/
theorem formatStockCodeT_not_idempotent :
    formatStockCodeT (formatStockCodeT ['6', '0', '0', '0', '0', '0', '.']) ≠
      formatStockCodeT ['6', '0', '0', '0', '0', '0', '.'] := by decide

/-- C4 (amended): the `src/index.js` formatter is idempotent on every input,
and the `part_002` formatter is idempotent on every input that does not
contain the `.` separator (its dotted branch can produce a bare code that a
second application prefixes again, see the counterexample). -/
theorem formatStockCode_idempotent_amended :
    (∀ s : List Char,
       formatStockCode (formatStockCode s) = formatStockCode s) ∧
    (∀ s : List Char, includes '.' s = false →
       formatStockCodeT (formatStockCodeT s) = formatStockCodeT s) := by
  constructor
  · intro s
    cases hdot : includes '.' s with
    | true => simp [formatStockCode, hdot]
    | false =>
        cases h6 : starts '6' s with
        | true => simp [formatStockCode, hdot, h6]
        | false =>
            cases h03 : (starts '0' s || starts '3' s) with
            | true => simp [formatStockCode, hdot, h6, h03]
            | false => simp [formatStockCode, hdot, h6, h03]
  · intro s hdot
    cases h6 : starts '6' s with
    | true => simp [formatStockCodeT, hdot, h6]
    | false =>
        cases h03 : (starts '0' s || starts '3' s) with
        | true =>
            simp only [Bool.or_eq_true] at h03
            rcases h03 with h0 | h3
            · simp [formatStockCodeT, hdot, h6, h0]
            · have h0 : starts '0' s = false := by
                cases s with
                | nil => rfl
                | cons c t =>
                    simp only [starts_cons, beq_iff_eq] at h3 ⊢
                    simp [h3]
              simp [formatStockCodeT, hdot, h6, h0, h3]
        | false =>
            simp only [Bool.or_eq_false_iff] at h03
            simp [formatStockCodeT, hdot, h6, h03.1, h03.2]

/-- Witness for C4 (amended): a dotless code is a fixed point of repeated
Tencent formatting. -/
theorem formatStockCode_idempotent_amended_witness :
    (includes '.' ['6', '0', '0', '0', '0', '0'] = false) ∧
    formatStockCodeT (formatStockCodeT ['6', '0', '0', '0', '0', '0']) =
      formatStockCodeT ['6', '0', '0', '0', '0', '0'] :=
  ⟨by decide,
   formatStockCode_idempotent_amended.2 ['6', '0', '0', '0', '0', '0']
     (by decide)⟩

/-- C5 counterexample: in `part_002`, a symbol whose formatted form matches
no position's symbol does NOT always trigger the "not found" message — when
the raw argument matches a position's display name, the `find` succeeds, the
filter (keyed on the formatted symbol) removes nothing, and no message is
printed.  Here the portfolio holds `sh600000` named `X`, and `remove("X")`
leaves the portfolio unchanged with no report (second component `false`). -/
theorem removePositionT_absent_counterexample :
    (∀ p ∈ [({ symbol := ['s', 'h', '6', '0', '0', '0', '0', '0'],
               name := ['X'], shares := .num 100, purchasePrice := .num 10,
               dateAdded := [], dateModified := none } : Position)],
       p.symbol ≠ formatStockCodeT ['X']) ∧
    removePositionT
      [{ symbol := ['s', 'h', '6', '0', '0', '0', '0', '0'],
         name := ['X'], shares := .num 100, purchasePrice := .num 10,
         dateAdded := [], dateModified := none }] ['X'] =
      ([{ symbol := ['s', 'h', '6', '0', '0', '0', '0', '0'],
          name := ['X'], shares := .num 100, purchasePrice := .num 10,
          dateAdded := [], dateModified := none }], false) := by
  constructor
  · decide
  · decide

/-- C5 (amended): when the formatted symbol matches no position, both
variants leave the portfolio data unchanged and raise no error; the
`part_002` variant reports "not found" exactly when, in addition, no
position's display name or stored symbol equals the raw argument, while the
`src/index.js` variant never reports "not found" at all. -/
theorem removePosition_absent_amended :
    (∀ (pf : List Position) (s : List Char),
       (∀ p ∈ pf, p.symbol ≠ formatStockCode s) →
       removePosition pf s = (pf, false)) ∧
    (∀ (pf : List Position) (s : List Char),
       (∀ p ∈ pf, p.symbol ≠ formatStockCodeT s) →
       (removePositionT pf s).1 = pf ∧
       ((removePositionT pf s).2 = true ↔
         ∀ p ∈ pf, p.name ≠ s ∧ p.symbol ≠ s)) := by
  constructor
  · intro pf s habs
    unfold removePosition
    rw [List.filter_eq_self.mpr (fun a ha => by simpa using habs a ha)]
  · intro pf s habs
    cases hfind : pf.find? (fun p => p.name == s || p.symbol == s) with
    | none =>
        have hres : removePositionT pf s = (pf, true) := by
          unfold removePositionT; rw [hfind]
        rw [hres]
        refine ⟨rfl, ?_⟩
        constructor
        · intro _ p hp
          have := List.find?_eq_none.mp hfind p hp
          simpa using this
        · intro _
          rfl
    | some x =>
        have hres : removePositionT pf s =
            (pf.filter (fun p => !(p.symbol == formatStockCodeT s)),
             false) := by
          unfold removePositionT; rw [hfind]
        rw [hres]
        refine ⟨List.filter_eq_self.mpr
          (fun a ha => by simpa using habs a ha), ?_⟩
        constructor
        · intro hfalse
          exact absurd hfalse (by simp)
        · intro hall
          exfalso
          have hx := List.find?_some hfind
          have hmem := List.mem_of_find?_eq_some hfind
          have := hall x hmem
          simp only [Bool.or_eq_true, beq_iff_eq] at hx
          rcases hx with h | h
          · exact this.1 h
          · exact this.2 h

/-- Witness for C5 (amended): removing an absent symbol from a one-position
portfolio leaves it unchanged, and the `part_002` variant reports "not
found" since neither name nor symbol matches. -/
theorem removePosition_absent_amended_witness :
    (∀ p ∈ [({ symbol := ['s', 'h', '6', '0', '0', '0', '0', '0'],
               name := [], shares := .num 100, purchasePrice := .num 10,
               dateAdded := [], dateModified := none } : Position)],
       p.symbol ≠ formatStockCodeT ['0', '0', '0', '0', '0', '1']) ∧
    ((removePositionT
        [{ symbol := ['s', 'h', '6', '0', '0', '0', '0', '0'],
           name := [], shares := .num 100, purchasePrice := .num 10,
           dateAdded := [], dateModified := none }]
        ['0', '0', '0', '0', '0', '1']).1 =
      [{ symbol := ['s', 'h', '6', '0', '0', '0', '0', '0'],
         name := [], shares := .num 100, purchasePrice := .num 10,
         dateAdded := [], dateModified := none }] ∧
     ((removePositionT
        [{ symbol := ['s', 'h', '6', '0', '0', '0', '0', '0'],
           name := [], shares := .num 100, purchasePrice := .num 10,
           dateAdded := [], dateModified := none }]
        ['0', '0', '0', '0', '0', '1']).2 = true ↔
       ∀ p ∈ [({ symbol := ['s', 'h', '6', '0', '0', '0', '0', '0'],
                 name := [], shares := .num 100, purchasePrice := .num 10,
                 dateAdded := [], dateModified := none } : Position)],
         p.name ≠ ['0', '0', '0', '0', '0', '1'] ∧
         p.symbol ≠ ['0', '0', '0', '0', '0', '1'])) :=
  ⟨by decide,
   removePosition_absent_amended.2 _ ['0', '0', '0', '0', '0', '1']
     (by decide)⟩

/-- C6: in `part_002`, removing by display name does NOT delete the matching
entry.  With a portfolio holding symbol `sh600000` under the name `bank`,
`remove("bank")` finds the position by name (so no "not found" message), but
then filters by `formatStockCode("bank") = "bank"`, which matches no
position's symbol — the entry survives and the unchanged portfolio is
re-persisted, even though the CLI prints "Position removed successfully". -/
theorem removePositionT_by_name_removes_nothing :
    removePositionT
      [{ symbol := ['s', 'h', '6', '0', '0', '0', '0', '0'],
         name := ['b', 'a', 'n', 'k'], shares := .num 100,
         purchasePrice := .num 10, dateAdded := [], dateModified := none }]
      ['b', 'a', 'n', 'k'] =
      ([{ symbol := ['s', 'h', '6', '0', '0', '0', '0', '0'],
          name := ['b', 'a', 'n', 'k'], shares := .num 100,
          purchasePrice := .num 10, dateAdded := [], dateModified := none }],
       false) := by decide

/-- C7: in `src/index.js`, adding a not-yet-held symbol appends the new
position (with `dateAdded` set and no `dateModified`) and persists it, but
the function then throws a `ReferenceError` instead of returning the
position: `position` is a `const` local to the `else` block and is out of
scope at `return existingPosition || position` (and `existingPosition` is
`undefined` on this path, so the `||` must evaluate it).  The `part_002`
variant hoists the declaration and returns the new position normally. -/
theorem addPosition_new_symbol_throws :
    addPosition [] ['6', '0', '0', '0', '0', '0'] (.num 100) (.num 10)
        [] ['t'] =
      ([{ symbol := ['6', '0', '0', '0', '0', '0', '.', 'S', 'H'],
          name := [], shares := .num 100, purchasePrice := .num 10,
          dateAdded := ['t'], dateModified := none }], Except.error ()) ∧
    addPositionT [] ['6', '0', '0', '0', '0', '0'] (.num 100) (.num 10)
        [] ['t'] =
      ([{ symbol := ['s', 'h', '6', '0', '0', '0', '0', '0'],
          name := [], shares := .num 100, purchasePrice := .num 10,
          dateAdded := ['t'], dateModified := none }],
       { symbol := ['s', 'h', '6', '0', '0', '0', '0', '0'],
         name := [], shares := .num 100, purchasePrice := .num 10,
         dateAdded := ['t'], dateModified := none }) := by
  constructor
  · decide
  · decide

/-- C8: a missing or unparseable backing file makes `loadConfig` /
`loadPortfolio` substitute the default record (config with empty `apiKey`,
resp. the empty portfolio) and immediately write it back (flag `true`); the
`catch` swallows the failure, so the loader always returns normally. -/
theorem load_recovers_with_default :
    (∀ (parse : List Char → Option Config) (file : Option (List Char)),
       (file = none ∨ ∃ c, file = some c ∧ parse c = none) →
       loadConfig parse file = (⟨[]⟩, true)) ∧
    (∀ (parse : List Char → Option (List Position))
       (file : Option (List Char)),
       (file = none ∨ ∃ c, file = some c ∧ parse c = none) →
       loadPortfolio parse file = ([], true)) := by
  constructor
  · intro parse file h
    rcases h with h | ⟨c, hc, hp⟩
    · rw [h]; rfl
    · rw [hc]; simp [loadConfig, hp]
  · intro parse file h
    rcases h with h | ⟨c, hc, hp⟩
    · rw [h]; rfl
    · rw [hc]; simp [loadPortfolio, hp]

/-- Witness for C8: a missing config file and a corrupt portfolio file both
recover to the defaults and re-persist them. -/
theorem load_recovers_with_default_witness :
    (((none : Option (List Char)) = none ∨
        ∃ c, (none : Option (List Char)) = some c ∧
          (fun _ : List Char => (none : Option Config)) c = none) ∧
      loadConfig (fun _ => none) none = (⟨[]⟩, true)) ∧
    ((some ['x'] = none ∨
        ∃ c, (some ['x'] : Option (List Char)) = some c ∧
          (fun _ : List Char => (none : Option (List Position))) c = none) ∧
      loadPortfolio (fun _ => none) (some ['x']) = ([], true)) :=
  ⟨⟨Or.inl rfl, load_recovers_with_default.1 _ none (Or.inl rfl)⟩,
   ⟨Or.inr ⟨['x'], rfl, rfl⟩,
    load_recovers_with_default.2 _ (some ['x'])
      (Or.inr ⟨['x'], rfl, rfl⟩)⟩⟩

/-- C9: the weighted-average division in `add` is unguarded.  If the first
position found for the formatted symbol holds finite shares `S`, then adding
shares `-S` (at any price) makes the divisor `S + (-S) = 0`, and the stored
`purchasePrice` becomes a non-finite value (`NaN` or an infinity); the call
still returns normally, no error is raised.  Proved for both variants. -/
theorem addPosition_negated_shares_nonfinite :
    (∀ (pf : List Position) (sym : List Char) (S : ℚ) (price : JSNum)
       (name now : List Char) (p : Position),
       pf.find? (fun q => q.symbol == formatStockCode sym) = some p →
       p.shares = .num S →
       ∃ p', (addPosition pf sym (.num (-S)) price name now).2 =
               Except.ok p' ∧
         p' ∈ (addPosition pf sym (.num (-S)) price name now).1 ∧
         p'.purchasePrice.isFinite = false) ∧
    (∀ (pf : List Position) (sym : List Char) (S : ℚ) (price : JSNum)
       (name now : List Char) (p : Position),
       pf.find? (fun q => q.symbol == formatStockCodeT sym) = some p →
       p.shares = .num S →
       ∃ p', (addPositionT pf sym (.num (-S)) price name now).2 = p' ∧
         p' ∈ (addPositionT pf sym (.num (-S)) price name now).1 ∧
         p'.purchasePrice.isFinite = false) := by
  constructor
  · intro pf sym S price name now p hfind hS
    obtain ⟨pf', h1, h2⟩ := updateFirst_of_find? (formatStockCode sym)
      (fun q => mergePos q (.num (-S)) price name now) pf p hfind
    refine ⟨mergePos p (.num (-S)) price name now, ?_, ?_, ?_⟩
    · unfold addPosition
      rw [h1]
    · unfold addPosition
      rw [h1]
      exact h2
    · have hz : jadd p.shares (.num (-S)) = .num 0 := by
        rw [hS]; simp [jadd]
      simp only [mergePos, hz]
      exact jdiv_num_zero_not_finite _
  · intro pf sym S price name now p hfind hS
    obtain ⟨pf', h1, h2⟩ := updateFirst_of_find? (formatStockCodeT sym)
      (fun q => mergePos q (.num (-S)) price name now) pf p hfind
    refine ⟨mergePos p (.num (-S)) price name now, ?_, ?_, ?_⟩
    · unfold addPositionT
      rw [h1]
    · unfold addPositionT
      rw [h1]
      exact h2
    · have hz : jadd p.shares (.num (-S)) = .num 0 := by
        rw [hS]; simp [jadd]
      simp only [mergePos, hz]
      exact jdiv_num_zero_not_finite _

/-- Witness for C9: a portfolio holding 100 shares of `600000.SH` at 10;
adding −100 shares at price 5 stores a non-finite purchase price. -/
theorem addPosition_negated_shares_nonfinite_witness :
    (([({ symbol := ['6', '0', '0', '0', '0', '0', '.', 'S', 'H'],
          name := [], shares := .num 100, purchasePrice := .num 10,
          dateAdded := [], dateModified := none } : Position)].find?
        (fun q => q.symbol == formatStockCode ['6', '0', '0', '0', '0', '0'])
        = some { symbol := ['6', '0', '0', '0', '0', '0', '.', 'S', 'H'],
                 name := [], shares := .num 100, purchasePrice := .num 10,
                 dateAdded := [], dateModified := none }) ∧
      ({ symbol := ['6', '0', '0', '0', '0', '0', '.', 'S', 'H'],
         name := [], shares := .num 100, purchasePrice := .num 10,
         dateAdded := [], dateModified := none } : Position).shares
        = .num 100) ∧
    ∃ p', (addPosition
        [{ symbol := ['6', '0', '0', '0', '0', '0', '.', 'S', 'H'],
           name := [], shares := .num 100, purchasePrice := .num 10,
           dateAdded := [], dateModified := none }]
        ['6', '0', '0', '0', '0', '0'] (.num (-100)) (.num 5) [] []).2 =
          Except.ok p' ∧
      p' ∈ (addPosition
        [{ symbol := ['6', '0', '0', '0', '0', '0', '.', 'S', 'H'],
           name := [], shares := .num 100, purchasePrice := .num 10,
           dateAdded := [], dateModified := none }]
        ['6', '0', '0', '0', '0', '0'] (.num (-100)) (.num 5) [] []).1 ∧
      p'.purchasePrice.isFinite = false :=
  ⟨⟨by decide, rfl⟩,
   addPosition_negated_shares_nonfinite.1 _ _ 100 (.num 5) [] []
     { symbol := ['6', '0', '0', '0', '0', '0', '.', 'S', 'H'],
       name := [], shares := .num 100, purchasePrice := .num 10,
       dateAdded := [], dateModified := none }
     (by decide) rfl⟩

/-- C10: when `add` merges into an existing position (the first position
whose symbol equals the formatted argument), the provided name overwrites the
stored name exactly when it is non-empty — an empty name argument leaves the
existing name unchanged — and the merged position's `symbol` and `dateAdded`
fields are those of the existing position, unmodified.  Both variants. -/
theorem addPosition_merge_name_frame :
    (∀ (pf : List Position) (sym : List Char) (shares price : JSNum)
       (name now : List Char) (p : Position),
       pf.find? (fun q => q.symbol == formatStockCode sym) = some p →
       ∃ p', (addPosition pf sym shares price name now).2 = Except.ok p' ∧
         p'.name = (if name.isEmpty then p.name else name) ∧
         p'.symbol = p.symbol ∧ p'.dateAdded = p.dateAdded) ∧
    (∀ (pf : List Position) (sym : List Char) (shares price : JSNum)
       (name now : List Char) (p : Position),
       pf.find? (fun q => q.symbol == formatStockCodeT sym) = some p →
       ∃ p', (addPositionT pf sym shares price name now).2 = p' ∧
         p'.name = (if name.isEmpty then p.name else name) ∧
         p'.symbol = p.symbol ∧ p'.dateAdded = p.dateAdded) := by
  constructor
  · intro pf sym shares price name now p hfind
    obtain ⟨pf', h1, _⟩ := updateFirst_of_find? (formatStockCode sym)
      (fun q => mergePos q shares price name now) pf p hfind
    refine ⟨mergePos p shares price name now, ?_, ?_, rfl, rfl⟩
    · unfold addPosition
      rw [h1]
    · simp [mergePos]
  · intro pf sym shares price name now p hfind
    obtain ⟨pf', h1, _⟩ := updateFirst_of_find? (formatStockCodeT sym)
      (fun q => mergePos q shares price name now) pf p hfind
    refine ⟨mergePos p shares price name now, ?_, ?_, rfl, rfl⟩
    · unfold addPositionT
      rw [h1]
    · simp [mergePos]

/-- Witness for C10: merging 50 more shares of `600000` with the non-empty
name `N` overwrites the stored name `old`, keeping symbol and `dateAdded`. -/
theorem addPosition_merge_name_frame_witness :
    ([({ symbol := ['6', '0', '0', '0', '0', '0', '.', 'S', 'H'],
          name := ['o', 'l', 'd'], shares := .num 100,
          purchasePrice := .num 10, dateAdded := ['d'],
          dateModified := none } : Position)].find?
        (fun q => q.symbol == formatStockCode ['6', '0', '0', '0', '0', '0'])
        = some { symbol := ['6', '0', '0', '0', '0', '0', '.', 'S', 'H'],
                 name := ['o', 'l', 'd'], shares := .num 100,
                 purchasePrice := .num 10, dateAdded := ['d'],
                 dateModified := none }) ∧
    ∃ p', (addPosition
        [{ symbol := ['6', '0', '0', '0', '0', '0', '.', 'S', 'H'],
           name := ['o', 'l', 'd'], shares := .num 100,
           purchasePrice := .num 10, dateAdded := ['d'],
           dateModified := none }]
        ['6', '0', '0', '0', '0', '0'] (.num 50) (.num 12) ['N'] ['m']).2 =
          Except.ok p' ∧
      p'.name = (if (['N'] : List Char).isEmpty then
          ({ symbol := ['6', '0', '0', '0', '0', '0', '.', 'S', 'H'],
             name := ['o', 'l', 'd'], shares := .num 100,
             purchasePrice := .num 10, dateAdded := ['d'],
             dateModified := none } : Position).name else ['N']) ∧
      p'.symbol = ['6', '0', '0', '0', '0', '0', '.', 'S', 'H'] ∧
      p'.dateAdded = ['d'] :=
  ⟨by decide,
   addPosition_merge_name_frame.1 _ _ (.num 50) (.num 12) ['N'] ['m']
     { symbol := ['6', '0', '0', '0', '0', '0', '.', 'S', 'H'],
       name := ['o', 'l', 'd'], shares := .num 100,
       purchasePrice := .num 10, dateAdded := ['d'], dateModified := none }
     (by decide)⟩

end StockMonitor
